import Mathlib

/-!
Verification of the transcript-acquisition and analysis pipeline of the
video-summarizer backend (`backend.py`), as a shallow embedding.

Strings are modelled as `List Char`; machine side effects (filesystem,
external providers) are modelled by explicit state passing and by oracle
parameters recording what each external call would return.  Character
classes follow the ASCII semantics of the regular expressions appearing in
the source (`[0-9A-Za-z_-]`, `[a-zA-Z]`, `\b` with word characters
`[A-Za-z0-9_]`).
-/

namespace VideoSummarizer

/-! ## Identifier Extractor (`extract_video_id`, backend.py lines 71-77)

The source applies `re.search(r'(?:v=|\/)([0-9A-Za-z_-]{11}).*', url)`:
the scan finds the leftmost position where a marker (`v=` or `/`) is
followed by at least eleven identifier characters, and captures exactly
those eleven characters; the trailing `.*` never constrains the match. -/

/-- Character class `[0-9A-Za-z_-]` of the source regex. -/
def isIdChar (c : Char) : Bool :=
  c.isAlphanum || c = '_' || c = '-'

/-- The alternation `(?:v=|\/)` at the head of the remaining input:
returns the input after the marker when one is present. -/
def matchMarker : List Char → Option (List Char)
  | 'v' :: '=' :: rest => some rest
  | '/' :: rest => some rest
  | _ => none

/-- `([0-9A-Za-z_-]{11})`: capture eleven identifier characters from the
front of `rest`, failing when fewer are available. -/
def grabToken (rest : List Char) : Option (List Char) :=
  if (rest.take 11).length = 11 ∧ (rest.take 11).all isIdChar = true then
    some (rest.take 11)
  else
    none

/-- Attempt the whole pattern at the current position. -/
def matchAt (cs : List Char) : Option (List Char) :=
  (matchMarker cs).bind grabToken

/-- `re.search`: try the pattern at each position, left to right. -/
def findMatch : List Char → Option (List Char)
  | [] => none
  | c :: rest =>
    match matchAt (c :: rest) with
    | some tok => some tok
    | none => findMatch rest

/-- `extract_video_id` (backend.py 71-77): return the captured group of
the leftmost match, or raise `ValueError("Invalid YouTube URL")`. -/
def extract_video_id (url : List Char) : Except String (List Char) :=
  match findMatch url with
  | some tok => .ok tok
  | none => .error "Invalid YouTube URL"

/-- A locator contains the pattern: some marker (`v=` or `/`) followed by
eleven identifier characters, anywhere in the string. -/
def hasIdPattern (cs : List Char) : Prop :=
  ∃ pre mk tok post, (mk = ['v', '='] ∨ mk = ['/']) ∧
    cs = pre ++ mk ++ tok ++ post ∧ tok.length = 11 ∧ tok.all isIdChar = true

example : extract_video_id ("https://example.com/watch?v=AAAAAAAAAAA".data)
    = .ok ("AAAAAAAAAAA".data) := rfl

example : extract_video_id ("hello".data) = .error "Invalid YouTube URL" := rfl

example : extract_video_id ("v=abcdefghijkLMNO".data) = .ok ("abcdefghijk".data) := rfl

theorem matchMarker_sound {cs rest : List Char} (h : matchMarker cs = some rest) :
    ∃ mk, (mk = ['v', '='] ∨ mk = ['/']) ∧ cs = mk ++ rest := by
  unfold matchMarker at h
  split at h
  · exact ⟨['v', '='], Or.inl rfl, by simp_all⟩
  · exact ⟨['/'], Or.inr rfl, by simp_all⟩
  · exact absurd h (by simp)

theorem grabToken_sound {rest tok : List Char} (h : grabToken rest = some tok) :
    ∃ post, rest = tok ++ post ∧ tok.length = 11 ∧ tok.all isIdChar = true := by
  unfold grabToken at h
  split at h
  · rename_i hc
    obtain ⟨h1, h2⟩ := hc
    obtain rfl : rest.take 11 = tok := Option.some.inj h
    exact ⟨rest.drop 11, (List.take_append_drop 11 rest).symm, h1, h2⟩
  · exact absurd h (by simp)

theorem grabToken_complete {tok post : List Char} (h11 : tok.length = 11)
    (hid : tok.all isIdChar = true) : grabToken (tok ++ post) = some tok := by
  have ht : (tok ++ post).take 11 = tok := by
    rw [← h11]; exact List.take_left tok post
  unfold grabToken
  rw [ht]
  simp [h11, hid]

theorem matchAt_sound {cs tok : List Char} (h : matchAt cs = some tok) :
    ∃ mk post, (mk = ['v', '='] ∨ mk = ['/']) ∧ cs = mk ++ (tok ++ post) ∧
      tok.length = 11 ∧ tok.all isIdChar = true := by
  unfold matchAt at h
  cases hm : matchMarker cs with
  | none => rw [hm] at h; simp at h
  | some rest =>
    rw [hm] at h
    simp only [Option.some_bind] at h
    obtain ⟨mk, hmk, hcs⟩ := matchMarker_sound hm
    obtain ⟨post, hrest, h11, hid⟩ := grabToken_sound h
    exact ⟨mk, post, hmk, by rw [hcs, hrest], h11, hid⟩

theorem matchAt_complete {mk tok post : List Char}
    (hmk : mk = ['v', '='] ∨ mk = ['/']) (h11 : tok.length = 11)
    (hid : tok.all isIdChar = true) : matchAt (mk ++ tok ++ post) = some tok := by
  have hmark : matchMarker (mk ++ (tok ++ post)) = some (tok ++ post) := by
    rcases hmk with h | h <;> subst h <;> rfl
  unfold matchAt
  rw [List.append_assoc, hmark]
  simp [grabToken_complete h11 hid]

theorem findMatch_sound : ∀ {cs tok : List Char}, findMatch cs = some tok →
    ∃ pre rest, cs = pre ++ rest ∧ matchAt rest = some tok := by
  intro cs
  induction cs with
  | nil => intro tok h; simp [findMatch] at h
  | cons c rest ih =>
    intro tok h
    unfold findMatch at h
    split at h
    · rename_i heq
      exact ⟨[], c :: rest, rfl, heq.trans h⟩
    · obtain ⟨pre, r, hcr, hma⟩ := ih h
      exact ⟨c :: pre, r, by rw [hcr]; rfl, hma⟩

theorem findMatch_complete : ∀ {pre rest : List Char} {tok : List Char},
    matchAt rest = some tok → (findMatch (pre ++ rest)).isSome = true := by
  intro pre
  induction pre with
  | nil =>
    intro rest tok h
    cases rest with
    | nil => simp [matchAt, matchMarker] at h
    | cons c r =>
      show (findMatch (c :: r)).isSome = true
      unfold findMatch
      split
      · rfl
      · rename_i heq; simp [h] at heq
  | cons c pre ih =>
    intro rest tok h
    show (findMatch (c :: (pre ++ rest))).isSome = true
    unfold findMatch
    split
    · rfl
    · exact ih h

/-- **C3.** For every locator containing an 11-character identifier token
preceded by `v=` or `/`, `extract_video_id` succeeds and returns a token
that is exactly such an 11-character identifier occurrence in the locator;
for every locator without such a pattern it fails with the
`Invalid YouTube URL` (`InvalidLocator`) error.  The function is pure and
deterministic by construction. -/
theorem extract_video_id_spec (cs : List Char) :
    (hasIdPattern cs → ∃ tok pre mk post, extract_video_id cs = .ok tok ∧
      (mk = ['v', '='] ∨ mk = ['/']) ∧ cs = pre ++ mk ++ tok ++ post ∧
      tok.length = 11 ∧ tok.all isIdChar = true) ∧
    (¬ hasIdPattern cs → extract_video_id cs = .error "Invalid YouTube URL") := by
  constructor
  · rintro ⟨pre, mk, tok, post, hmk, hcs, h11, hid⟩
    have hma : matchAt (mk ++ tok ++ post) = some tok := matchAt_complete hmk h11 hid
    have hcs' : cs = pre ++ (mk ++ tok ++ post) := by rw [hcs]; simp [List.append_assoc]
    have hsome : (findMatch cs).isSome = true := by
      rw [hcs']; exact findMatch_complete hma
    obtain ⟨tok', hfm⟩ := Option.isSome_iff_exists.mp hsome
    obtain ⟨pre', rest', hsplit, hma'⟩ := findMatch_sound hfm
    obtain ⟨mk', post', hmk', hrest', h11', hid'⟩ := matchAt_sound hma'
    refine ⟨tok', pre', mk', post', ?_, hmk', ?_, h11', hid'⟩
    · unfold extract_video_id
      rw [hfm]
    · rw [hsplit, hrest']; simp [List.append_assoc]
  · intro hno
    unfold extract_video_id
    cases hfm : findMatch cs with
    | none => rfl
    | some tok =>
      exfalso
      apply hno
      obtain ⟨pre, rest, hsplit, hma⟩ := findMatch_sound hfm
      obtain ⟨mk, post, hmk, hrest, h11, hid⟩ := matchAt_sound hma
      exact ⟨pre, mk, tok, post, hmk, by rw [hsplit, hrest]; simp [List.append_assoc],
        h11, hid⟩

/-- Witness for C3 at the concrete locator `v=abcdefghijkX`. -/
theorem extract_video_id_spec_witness :
    hasIdPattern ("v=abcdefghijkX".data) ∧
      (∃ tok pre mk post, extract_video_id ("v=abcdefghijkX".data) = .ok tok ∧
        (mk = ['v', '='] ∨ mk = ['/']) ∧
        "v=abcdefghijkX".data = pre ++ mk ++ tok ++ post ∧
        tok.length = 11 ∧ tok.all isIdChar = true) :=
  have hpat : hasIdPattern ("v=abcdefghijkX".data) :=
    ⟨[], ['v', '='], "abcdefghijk".data, ['X'], Or.inl rfl, by decide, by decide,
      by decide⟩
  ⟨hpat, (extract_video_id_spec ("v=abcdefghijkX".data)).1 hpat⟩

theorem findMatch_at_min : ∀ (p : Nat) (cs : List Char) {tok : List Char},
    matchAt (cs.drop p) = some tok → (∀ q, q < p → matchAt (cs.drop q) = none) →
    findMatch cs = some tok := by
  intro p
  induction p with
  | zero =>
    intro cs tok h _
    cases cs with
    | nil => simp [matchAt, matchMarker] at h
    | cons c rest =>
      rw [List.drop_zero] at h
      unfold findMatch
      rw [h]
  | succ p ih =>
    intro cs tok h hmin
    cases cs with
    | nil => rw [List.drop_nil] at h; simp [matchAt, matchMarker] at h
    | cons c rest =>
      have h0 : matchAt (c :: rest) = none := by
        have h0' := hmin 0 (Nat.succ_pos p)
        rwa [List.drop_zero] at h0'
      unfold findMatch
      rw [h0]
      refine ih rest h ?_
      intro q hq
      exact hmin (q + 1) (Nat.succ_lt_succ hq)

/-- **C9.** `extract_video_id` returns exactly the eleven identifier
characters immediately following the leftmost occurrence of a `v=` or `/`
marker that is followed by at least eleven identifier characters: when
more than eleven follow, only the first eleven are returned, and any
locator containing such a slash-delimited run is accepted. -/
theorem extract_video_id_leftmost (cs : List Char) (p : Nat) (mk rest : List Char)
    (hmk : mk = ['v', '='] ∨ mk = ['/']) (hsplit : cs.drop p = mk ++ rest)
    (hlen : 11 ≤ rest.length) (hid : (rest.take 11).all isIdChar = true)
    (hmin : ∀ q, q < p → matchAt (cs.drop q) = none) :
    extract_video_id cs = .ok (rest.take 11) := by
  have h11 : (rest.take 11).length = 11 := by rw [List.length_take]; omega
  have hma : matchAt (cs.drop p) = some (rest.take 11) := by
    rw [hsplit]
    have hdec : mk ++ rest = mk ++ rest.take 11 ++ rest.drop 11 := by
      simp [List.append_assoc, List.take_append_drop]
    rw [hdec]
    exact matchAt_complete hmk h11 hid
  have hfm := findMatch_at_min p cs hma hmin
  unfold extract_video_id
  rw [hfm]

/-- Witness for C9: in `x/abcdefghijkLM` the leftmost qualifying marker is
the slash at position 1 and the following run has 13 identifier
characters, of which exactly the first eleven are returned. -/
theorem extract_video_id_leftmost_witness :
    extract_video_id ("x/abcdefghijkLM".data) = .ok (("abcdefghijkLM".data).take 11) :=
  extract_video_id_leftmost ("x/abcdefghijkLM".data) 1 ['/'] ("abcdefghijkLM".data)
    (Or.inr rfl) (by decide) (by decide) (by decide) (by decide)

/-! ## Keyword extraction (`extract_keywords`, backend.py lines 147-165)

The source runs `re.findall(r'\b[a-zA-Z]{4,}\b', text.lower())`.  A match
is a maximal run of letters of length at least four whose neighbouring
characters (when present) are not word characters (`[A-Za-z0-9_]`,
modelled in ASCII): the greedy quantifier consumes a whole letter run and
`\b` rules out runs adjacent to digits or underscores.  The scanner below
walks the text carrying the flag "previous character was a word
character". -/

/-- `[a-zA-Z]` of the keyword regex. -/
def isLetterB (c : Char) : Bool := c.isAlpha

/-- Word characters for the `\b` boundary (ASCII `\w`). -/
def isWordChar (c : Char) : Bool := c.isAlphanum || c = '_'

/-- The `\b` after the letter run: the next character, when there is one,
must not be a word character. -/
def boundaryOk : List Char → Bool
  | [] => true
  | d :: _ => !isWordChar d

/-- One left-to-right pass of the regex engine.  `acc` is `some run`
(reversed) while inside a letter run whose left boundary was valid, and
`none` otherwise; `prevW` records, outside a run, whether the previous
character was a word character.  A run is emitted when it is terminated
by a non-word character (or the end of input) and has at least `minLen`
letters; a run terminated by a digit or underscore fails the closing `\b`
at every backtracking length and produces nothing. -/
def scanAux (minLen : Nat) : Option (List Char) → Bool → List Char → List (List Char)
  | none, _, [] => []
  | some acc, _, [] => if minLen ≤ acc.length then [acc.reverse] else []
  | none, prevW, c :: rest =>
    if isLetterB c && !prevW then scanAux minLen (some [c]) true rest
    else scanAux minLen none (isWordChar c) rest
  | some acc, _, c :: rest =>
    if isLetterB c then scanAux minLen (some (c :: acc)) true rest
    else
      (if minLen ≤ acc.length && !isWordChar c then [acc.reverse] else []) ++
        scanAux minLen none (isWordChar c) rest

/-- `re.findall(r'\b[a-zA-Z]{minLen,}\b', ·)` (the source uses
`minLen = 4`). -/
def scanTokens (minLen : Nat) (text : List Char) : List (List Char) :=
  scanAux minLen none false text

/-- `words = re.findall(r'\b[a-zA-Z]{4,}\b', text.lower())`. -/
def words (text : List Char) : List (List Char) :=
  scanTokens 4 (text.map Char.toLower)

/-- The fixed stop-word set of the source. -/
def stop_words : List (List Char) :=
  ["this".data, "that".data, "with".data, "have".data, "will".data, "from".data,
   "they".data, "been".data, "were".data, "said".data, "each".data, "which".data,
   "their".data, "time".data, "about".data, "would".data, "there".data,
   "could".data, "other".data, "more".data, "very".data, "what".data,
   "know".data, "just".data]

/-- `[word for word in words if word not in stop_words and len(word) > 4]`. -/
def filtered_words (text : List Char) : List (List Char) :=
  (words text).filter (fun w => !stop_words.contains w && decide (4 < w.length))

/-- Fuel-indexed kernel of `dedupFirst`; the fuel (an upper bound on the
list length, consumed once per head) only makes the recursion structural
and never runs out at the call below. -/
def dedupFuel : Nat → List (List Char) → List (List Char)
  | _, [] => []
  | 0, _ :: _ => []
  | n + 1, a :: l => a :: dedupFuel n (l.filter (fun b => !(b == a)))

/-- The distinct elements of a list in order of first occurrence: the key
order of `collections.Counter(filtered_words)` (Python dicts preserve
insertion order). -/
def dedupFirst (l : List (List Char)) : List (List Char) :=
  dedupFuel l.length l

/-- Stable descending insertion by `key`: an element moves past `b` only
when `b`'s key is strictly larger, so among equal keys earlier elements
stay first — the tie behaviour of `Counter.most_common` /
`heapq.nlargest`. -/
def insertRanked (key : List Char → Nat) (a : List Char) :
    List (List Char) → List (List Char)
  | [] => [a]
  | b :: l => if key a < key b then b :: insertRanked key a l else a :: b :: l

/-- Stable sort by descending key. -/
def sortByKeyDesc (key : List Char → Nat) : List (List Char) → List (List Char)
  | [] => []
  | a :: l => insertRanked key a (sortByKeyDesc key l)

/-- `collections.Counter(l).most_common(n)`: the distinct elements of `l`
ranked by descending multiplicity, ties broken by first occurrence,
truncated to `n`. -/
def most_common (l : List (List Char)) (n : Nat) : List (List Char) :=
  (sortByKeyDesc (fun w => l.count w) (dedupFirst l)).take n

/-- `extract_keywords` (backend.py 147-165). -/
def extract_keywords (text : List Char) : List (List Char) :=
  most_common (filtered_words text) 10

/-- The simplified extraction described by the spec: the token regex
directly requires length at least five, with the same stop-word removal
and the same ranking. -/
def extract_keywords_spec (text : List Char) : List (List Char) :=
  let ws := scanTokens 5 (text.map Char.toLower)
  most_common (ws.filter (fun w => !stop_words.contains w)) 10

example :
    extract_keywords ("Testing testing training training example example example".data)
      = ["example".data, "testing".data, "training".data] := by decide

example : extract_keywords ("this that with tiny ab12cd efgh3".data) = [] := by decide

example : extract_keywords ("Hello world.".data) = ["hello".data, "world".data] := by
  decide

theorem filter_emitB (acc : List Char) (w : Bool) :
    (if 4 ≤ acc.length && w then [acc.reverse] else []).filter
        (fun x => decide (4 < x.length)) =
      if 5 ≤ acc.length && w then [acc.reverse] else [] := by
  cases w with
  | false => simp
  | true =>
    simp only [Bool.and_true]
    by_cases h5 : 5 ≤ acc.length
    · rw [if_pos (by simp only [decide_eq_true_eq]; omega :
          decide (4 ≤ acc.length) = true), if_pos (by simpa using h5)]
      have h4 : 4 < acc.length := by omega
      simp [List.filter_cons, List.length_reverse, h4]
    · by_cases h4 : 4 ≤ acc.length
      · rw [if_pos (by simpa using h4), if_neg (by simpa using h5)]
        have h4' : ¬ 4 < acc.length := by omega
        simp [List.filter_cons, List.length_reverse, h4']
      · rw [if_neg (by simpa using h4), if_neg (by simpa using h5)]
        rfl

theorem scanAux_filter : ∀ (l : List Char) (o : Option (List Char)) (b : Bool),
    (scanAux 4 o b l).filter (fun w => decide (4 < w.length)) = scanAux 5 o b l := by
  intro l
  induction l with
  | nil =>
    intro o b
    cases o with
    | none => rfl
    | some acc =>
      show (if 4 ≤ acc.length then [acc.reverse] else []).filter _
          = if 5 ≤ acc.length then [acc.reverse] else []
      by_cases h5 : 5 ≤ acc.length
      · rw [if_pos h5, if_pos (by omega : 4 ≤ acc.length)]
        have h4 : 4 < acc.length := by omega
        simp [List.filter_cons, List.length_reverse, h4]
      · by_cases h4 : 4 ≤ acc.length
        · rw [if_pos h4, if_neg h5]
          have h4' : ¬ 4 < acc.length := by omega
          simp [List.filter_cons, List.length_reverse, h4']
        · rw [if_neg h4, if_neg h5]
          rfl
  | cons c rest ih =>
    intro o b
    cases o with
    | none =>
      show (scanAux 4 (none : Option (List Char)) b (c :: rest)).filter _
          = scanAux 5 none b (c :: rest)
      simp only [scanAux]
      by_cases hc : (isLetterB c && !b) = true
      · rw [if_pos hc, if_pos hc]
        exact ih (some [c]) true
      · rw [if_neg hc, if_neg hc]
        exact ih none (isWordChar c)
    | some acc =>
      show (scanAux 4 (some acc) b (c :: rest)).filter _
          = scanAux 5 (some acc) b (c :: rest)
      simp only [scanAux]
      by_cases hc : isLetterB c = true
      · rw [if_pos hc, if_pos hc]
        exact ih (some (c :: acc)) true
      · rw [if_neg hc, if_neg hc]
        rw [List.filter_append, filter_emitB, ih none (isWordChar c)]

/-- **C6.** The source's double condition — regex minimum length four
followed by the `len(word) > 4` filter — is extensionally equal to the
simplified extraction whose token pattern directly requires length at
least five, with the same stop-word removal and ranking. -/
theorem extract_keywords_refines (text : List Char) :
    extract_keywords text = extract_keywords_spec text := by
  unfold extract_keywords extract_keywords_spec filtered_words words scanTokens
  have hfilters :
      (scanAux 4 none false (text.map Char.toLower)).filter
          (fun w => !stop_words.contains w && decide (4 < w.length)) =
        (scanAux 5 none false (text.map Char.toLower)).filter
          (fun w => !stop_words.contains w) := by
    rw [← scanAux_filter (text.map Char.toLower) none false, List.filter_filter]
  rw [hfilters]

/-- Index of the first occurrence of `w` (the length of the list when
`w` does not occur); used to state the tie-breaking order. -/
def firstIdx (w : List Char) : List (List Char) → Nat
  | [] => 0
  | a :: l => if a = w then 0 else firstIdx w l + 1

theorem firstIdx_cons_self (w : List Char) (l : List (List Char)) :
    firstIdx w (w :: l) = 0 := by simp [firstIdx]

theorem firstIdx_cons_ne {a w : List Char} (l : List (List Char)) (h : a ≠ w) :
    firstIdx w (a :: l) = firstIdx w l + 1 := by simp [firstIdx, h]

theorem mem_dedupFuel : ∀ (n : Nat) (l : List (List Char)) {x : List Char},
    x ∈ dedupFuel n l → x ∈ l := by
  intro n
  induction n with
  | zero =>
    intro l x h
    cases l with
    | nil => simp [dedupFuel] at h
    | cons a l => simp [dedupFuel] at h
  | succ n ih =>
    intro l x h
    cases l with
    | nil => simp [dedupFuel] at h
    | cons a l =>
      simp only [dedupFuel, List.mem_cons] at h
      rcases h with rfl | h
      · exact List.mem_cons_self _ _
      · exact List.mem_cons_of_mem _ (List.mem_of_mem_filter (ih _ h))

theorem nodup_dedupFuel : ∀ (n : Nat) (l : List (List Char)), l.length ≤ n →
    (dedupFuel n l).Nodup := by
  intro n
  induction n with
  | zero =>
    intro l h
    have hl : l = [] := List.length_eq_zero.mp (Nat.le_zero.mp h)
    subst hl
    simp [dedupFuel]
  | succ n ih =>
    intro l h
    cases l with
    | nil => simp [dedupFuel]
    | cons a l =>
      simp only [dedupFuel]
      refine List.nodup_cons.mpr ⟨?_, ih _ ?_⟩
      · intro hmem
        have hf := (List.mem_filter.mp (mem_dedupFuel _ _ hmem)).2
        simp at hf
      · exact le_trans (List.length_filter_le _ _) (Nat.le_of_succ_le_succ h)

theorem firstIdx_filter_lt (p : List Char → Bool) :
    ∀ (l : List (List Char)) (x y : List Char), p x = true → p y = true →
      firstIdx x (l.filter p) < firstIdx y (l.filter p) →
      firstIdx x l < firstIdx y l := by
  intro l
  induction l with
  | nil => intro x y _ _ h; simpa using h
  | cons c l ih =>
    intro x y hpx hpy hlt
    by_cases hpc : p c = true
    · rw [List.filter_cons_of_pos hpc] at hlt
      by_cases hxc : c = x
      · subst hxc
        have hyx : c ≠ y := by
          intro hyx
          rw [hyx] at hlt
          rw [firstIdx_cons_self] at hlt
          exact Nat.not_lt_zero _ hlt
        rw [firstIdx_cons_self]
        rw [firstIdx_cons_ne _ hyx]
        exact Nat.succ_pos _
      · by_cases hyc : c = y
        · subst hyc
          rw [firstIdx_cons_self, firstIdx_cons_ne _ hxc] at hlt
          exact absurd hlt (Nat.not_lt_zero _)
        · rw [firstIdx_cons_ne _ hxc, firstIdx_cons_ne _ hyc] at hlt
          rw [firstIdx_cons_ne _ hxc, firstIdx_cons_ne _ hyc]
          exact Nat.succ_lt_succ (ih x y hpx hpy (Nat.lt_of_succ_lt_succ hlt))
    · have hpc' : p c = false := Bool.eq_false_iff.mpr hpc
      rw [List.filter_cons_of_neg (by simp [hpc'])] at hlt
      have hxc : c ≠ x := fun h => by rw [← h, hpc'] at hpx; cases hpx
      have hyc : c ≠ y := fun h => by rw [← h, hpc'] at hpy; cases hpy
      rw [firstIdx_cons_ne _ hxc, firstIdx_cons_ne _ hyc]
      exact Nat.succ_lt_succ (ih x y hpx hpy hlt)

theorem pairwise_dedupFuel : ∀ (n : Nat) (l : List (List Char)), l.length ≤ n →
    (dedupFuel n l).Pairwise (fun x y => firstIdx x l < firstIdx y l) := by
  intro n
  induction n with
  | zero =>
    intro l h
    have hl : l = [] := List.length_eq_zero.mp (Nat.le_zero.mp h)
    subst hl
    simp [dedupFuel]
  | succ n ih =>
    intro l h
    cases l with
    | nil => simp [dedupFuel]
    | cons a l =>
      simp only [dedupFuel]
      refine List.pairwise_cons.mpr ⟨?_, ?_⟩
      · intro b hb
        have hbf := mem_dedupFuel _ _ hb
        have hba : a ≠ b := by
          have := (List.mem_filter.mp hbf).2
          simp at this
          exact fun h => this h.symm
        rw [firstIdx_cons_self, firstIdx_cons_ne _ hba]
        exact Nat.succ_pos _
      · have hlen : (l.filter (fun b => !(b == a))).length ≤ n :=
          le_trans (List.length_filter_le _ _) (Nat.le_of_succ_le_succ h)
        refine (ih _ hlen).imp_of_mem ?_
        intro x y hxm hym hxy
        have hpx := (List.mem_filter.mp (mem_dedupFuel _ _ hxm)).2
        have hpy := (List.mem_filter.mp (mem_dedupFuel _ _ hym)).2
        have hxa : a ≠ x := by simp at hpx; exact fun h => hpx h.symm
        have hya : a ≠ y := by simp at hpy; exact fun h => hpy h.symm
        have hord := firstIdx_filter_lt _ l x y hpx hpy hxy
        rw [firstIdx_cons_ne _ hxa, firstIdx_cons_ne _ hya]
        exact Nat.succ_lt_succ hord

theorem insertRanked_perm (key : List Char → Nat) (a : List Char) :
    ∀ l, (insertRanked key a l).Perm (a :: l) := by
  intro l
  induction l with
  | nil => exact List.Perm.refl _
  | cons b l ih =>
    simp only [insertRanked]
    by_cases h : key a < key b
    · rw [if_pos h]
      exact (ih.cons b).trans (List.Perm.swap a b l)
    · rw [if_neg h]

theorem sortByKeyDesc_perm (key : List Char → Nat) :
    ∀ l, (sortByKeyDesc key l).Perm l := by
  intro l
  induction l with
  | nil => exact List.Perm.refl _
  | cons a l ih =>
    exact (insertRanked_perm key a _).trans (ih.cons a)

theorem insertRanked_pairwise (key : List Char → Nat)
    (S : List Char → List Char → Prop) (a : List Char) :
    ∀ l, (l.Pairwise fun x y => key y < key x ∨ (key x = key y ∧ S x y)) →
      (∀ b ∈ l, S a b) →
      ((insertRanked key a l).Pairwise
        fun x y => key y < key x ∨ (key x = key y ∧ S x y)) := by
  intro l
  induction l with
  | nil => intro _ _; simp [insertRanked]
  | cons b l ih =>
    intro hp hS
    rcases List.pairwise_cons.mp hp with ⟨hb, hl⟩
    simp only [insertRanked]
    by_cases h : key a < key b
    · rw [if_pos h]
      refine List.pairwise_cons.mpr
        ⟨?_, ih hl (fun c hc => hS c (List.mem_cons_of_mem _ hc))⟩
      intro x hx
      rcases List.mem_cons.mp ((insertRanked_perm key a l).mem_iff.mp hx) with rfl | hxl
      · exact Or.inl h
      · exact hb x hxl
    · rw [if_neg h]
      have hba : key b ≤ key a := Nat.le_of_not_lt h
      refine List.pairwise_cons.mpr ⟨?_, hp⟩
      intro x hx
      rcases List.mem_cons.mp hx with rfl | hxl
      · rcases Nat.lt_or_ge (key x) (key a) with hlt | hge
        · exact Or.inl hlt
        · exact Or.inr ⟨Nat.le_antisymm hge hba, hS x (List.mem_cons_self _ _)⟩
      · rcases hb x hxl with hlt | ⟨heq, _⟩
        · exact Or.inl (Nat.lt_of_lt_of_le hlt hba)
        · rcases Nat.lt_or_ge (key x) (key a) with hlt' | hge'
          · exact Or.inl hlt'
          · refine Or.inr ⟨Nat.le_antisymm hge' (heq ▸ hba), hS x (List.mem_cons_of_mem _ hxl)⟩

theorem sortByKeyDesc_pairwise (key : List Char → Nat)
    (S : List Char → List Char → Prop) :
    ∀ l, l.Pairwise S →
      ((sortByKeyDesc key l).Pairwise
        fun x y => key y < key x ∨ (key x = key y ∧ S x y)) := by
  intro l
  induction l with
  | nil => intro _; simp [sortByKeyDesc]
  | cons a l ih =>
    intro hp
    rcases List.pairwise_cons.mp hp with ⟨ha, hl⟩
    exact insertRanked_pairwise key S a _ (ih hl)
      (fun b hb => ha b ((sortByKeyDesc_perm key l).mem_iff.mp hb))

theorem most_common_subset {l : List (List Char)} {n : Nat} {w : List Char}
    (hw : w ∈ most_common l n) : w ∈ l :=
  mem_dedupFuel _ _ ((sortByKeyDesc_perm _ _).mem_iff.mp (List.take_subset _ _ hw))

theorem most_common_nodup (l : List (List Char)) (n : Nat) :
    (most_common l n).Nodup :=
  ((sortByKeyDesc_perm _ _).symm.nodup
      (nodup_dedupFuel _ _ (le_refl _))).sublist (List.take_sublist _ _)

theorem most_common_length (l : List (List Char)) (n : Nat) :
    (most_common l n).length ≤ n :=
  List.length_take_le _ _

theorem most_common_pairwise (l : List (List Char)) (n : Nat) :
    (most_common l n).Pairwise
      (fun a b => l.count b < l.count a ∨
        (l.count a = l.count b ∧ firstIdx a l < firstIdx b l)) :=
  ((sortByKeyDesc_pairwise (fun w => l.count w) _ _
      (pairwise_dedupFuel _ _ (le_refl _)))).sublist (List.take_sublist _ _)

/-- **C4.** `extract_keywords` returns a duplicate-free sequence of at
most ten tokens, each of length at least five and outside the stop-word
set, ordered by descending frequency among the text's tokens with ties
broken by order of first occurrence. -/
theorem extract_keywords_props (text : List Char) :
    (extract_keywords text).Nodup ∧ (extract_keywords text).length ≤ 10 ∧
    (∀ w ∈ extract_keywords text, 4 < w.length ∧ w ∉ stop_words) ∧
    (extract_keywords text).Pairwise (fun a b =>
      (words text).count b < (words text).count a ∨
      ((words text).count a = (words text).count b ∧
        firstIdx a (words text) < firstIdx b (words text))) := by
  have hmem : ∀ {w : List Char}, w ∈ extract_keywords text →
      w ∈ filtered_words text := fun hw => most_common_subset hw
  have hpred : ∀ {w : List Char}, w ∈ filtered_words text →
      (!stop_words.contains w && decide (4 < w.length)) = true :=
    fun hw => (List.mem_filter.mp hw).2
  refine ⟨most_common_nodup _ _, most_common_length _ _, ?_, ?_⟩
  · intro w hw
    have hp := hpred (hmem hw)
    simp only [Bool.and_eq_true, Bool.not_eq_true', decide_eq_true_eq] at hp
    refine ⟨hp.2, ?_⟩
    simpa using hp.1
  · refine (most_common_pairwise (filtered_words text) 10).imp_of_mem ?_
    intro a b ha hb hab
    have hpa := hpred (hmem ha)
    have hpb := hpred (hmem hb)
    have hca : (filtered_words text).count a = (words text).count a :=
      List.count_filter hpa
    have hcb : (filtered_words text).count b = (words text).count b :=
      List.count_filter hpb
    rcases hab with hlt | ⟨heq, hidx⟩
    · exact Or.inl (by rw [← hca, ← hcb]; exact hlt)
    · refine Or.inr ⟨by rw [← hca, ← hcb]; exact heq, ?_⟩
      exact firstIdx_filter_lt _ (words text) a b hpa hpb hidx

/-! ## Sentiment (`analyze_sentiment`, backend.py lines 127-145)

The VADER lexicon analyzer is an external component; its
`polarity_scores` output is an oracle parameter.  Scores are modelled as
rationals. -/

/-- The dictionary returned by `polarity_scores`. -/
structure PolarityScores where
  pos : ℚ
  neg : ℚ
  neu : ℚ
  compound : ℚ
deriving DecidableEq

/-- The dictionary returned by `analyze_sentiment`. -/
structure Sentiment where
  overall : String
  pos : ℚ
  neg : ℚ
  neu : ℚ
  compound : ℚ
deriving DecidableEq

/-- `analyze_sentiment` (backend.py 127-145): classify the analyzer's
compound score with the two fixed thresholds and copy the component
scores through. -/
def analyze_sentiment (analyzer : List Char → PolarityScores)
    (text : List Char) : Sentiment :=
  { overall :=
      if (analyzer text).compound ≥ 5/100 then "positive"
      else if (analyzer text).compound ≤ -(5/100) then "negative"
      else "neutral",
    pos := (analyzer text).pos,
    neg := (analyzer text).neg,
    neu := (analyzer text).neu,
    compound := (analyzer text).compound }

/-- **C5.** The overall label is a pure deterministic function of the
analyzer's compound score through exactly the two thresholds:
positive iff `compound ≥ 0.05` (so `0.05` itself is positive), negative
iff `compound ≤ -0.05`, and neutral exactly on the open interval in
between (so `0.00` is neutral). -/
theorem analyze_sentiment_thresholds (analyzer : List Char → PolarityScores)
    (text : List Char) :
    ((analyze_sentiment analyzer text).overall = "positive" ↔
      5/100 ≤ (analyzer text).compound) ∧
    ((analyze_sentiment analyzer text).overall = "negative" ↔
      (analyzer text).compound ≤ -(5/100)) ∧
    ((analyze_sentiment analyzer text).overall = "neutral" ↔
      (-(5/100) < (analyzer text).compound ∧ (analyzer text).compound < 5/100)) := by
  simp only [analyze_sentiment]
  by_cases h1 : (analyzer text).compound ≥ 5/100
  · rw [if_pos h1]
    refine ⟨iff_of_true rfl h1, iff_of_false (by decide) (by intro h; linarith),
      iff_of_false (by decide) ?_⟩
    rintro ⟨_, h⟩
    linarith
  · rw [if_neg h1]
    by_cases h2 : (analyzer text).compound ≤ -(5/100)
    · rw [if_pos h2]
      refine ⟨iff_of_false (by decide) (by intro h; linarith),
        iff_of_true rfl h2, iff_of_false (by decide) ?_⟩
      rintro ⟨h, _⟩
      linarith
    · rw [if_neg h2]
      refine ⟨iff_of_false (by decide) (by intro h; linarith),
        iff_of_false (by decide) (fun h => h2 h),
        iff_of_true rfl ⟨by linarith, by linarith⟩⟩

/-! ## Audio-to-Text Fallback (`extract_audio_transcript`, backend.py 105-125)

The filesystem is modelled as the list of existing paths; the external
audio steps of one invocation are an oracle record.  In the source, the
`os.remove(audio_path)` cleanup sits inside the `try` block *before* the
`except` handler: any exception raised by the speech-recognition step
skips it, and the handler only re-raises an HTTP 400 error. -/

/-- Oracle for one invocation: whether `VideoFileClip` opens the media,
the fresh path from `tempfile.mktemp`, whether `write_audiofile`
succeeds, and what `recognize_google` returns (`none` models an
exception). -/
structure AVWorld where
  openOk : Bool
  audioPath : String
  writeOk : Bool
  recognizeResult : Option (List Char)
deriving DecidableEq

/-- `extract_audio_transcript` (backend.py 105-125), returning the HTTP
result and the filesystem after the call. -/
def extract_audio_transcript (w : AVWorld) (fs : List String) :
    Except String (List Char) × List String :=
  if w.openOk = false then (.error "Error extracting transcript", fs)
  else if w.writeOk = false then (.error "Error extracting transcript", fs)
  else
    match w.recognizeResult with
    | none => (.error "Error extracting transcript", fs ++ [w.audioPath])
    | some t => (.ok t, (fs ++ [w.audioPath]).erase w.audioPath)

/-- **C1** (evaluation at the failing input): when the media opens and the
audio artifact is written but `recognize_google` raises, the call fails
*and* the temporary audio file is still on the filesystem afterwards —
deletion does not happen on the failure exit path, contradicting the
claimed guaranteed release. -/
theorem extract_audio_transcript_leak :
    (extract_audio_transcript ⟨true, "tmp_audio.wav", true, none⟩ []).1
        = .error "Error extracting transcript" ∧
      (extract_audio_transcript ⟨true, "tmp_audio.wav", true, none⟩ []).2
        = ["tmp_audio.wav"] :=
  ⟨rfl, rfl⟩

/-- On the success path the source does delete the one temporary artifact
it created. -/
theorem extract_audio_transcript_success_cleanup (w : AVWorld) (t : List Char)
    (h : w.recognizeResult = some t) (hopen : w.openOk = true)
    (hwrite : w.writeOk = true) (hfresh : w.audioPath ∉ fs) :
    extract_audio_transcript w fs = (.ok t, fs) := by
  unfold extract_audio_transcript
  rw [hopen, hwrite, h]
  simp only [Bool.true_eq_false, if_false]
  have : (fs ++ [w.audioPath]).erase w.audioPath = fs := by
    rw [List.erase_append_right _ hfresh]
    simp [List.erase_cons_head]
  rw [this]

/-! ## Transcript Acquirer (`extract_youtube_transcript`, backend.py 94-103) -/

/-- `" ".join(item['text'] for item in transcript_list)`. -/
def joinSpaces (frags : List (List Char)) : List Char :=
  List.intercalate [' '] frags

/-- `extract_youtube_transcript` (backend.py 94-103): the caption-provider
call is an oracle (`primary`); on any primary error the function returns
whatever one invocation of the Audio-to-Text Fallback produces on the
reconstructed watch URL.  The final `Nat` counts fallback invocations. -/
def extract_youtube_transcript (primary : Except String (List (List Char)))
    (w : AVWorld) (fs : List String) :
    (Except String (List Char) × List String) × Nat :=
  match primary with
  | .ok frags => ((.ok (joinSpaces frags), fs), 0)
  | .error _ => (extract_audio_transcript w fs, 1)

/-- **C2.** Whenever the primary caption call fails — with any error `e` —
the Audio-to-Text Fallback is invoked exactly once and its outcome
(success or failure) is exactly what the caller receives; the right-hand
side does not mention `e`, so the primary error is never surfaced. -/
theorem extract_youtube_transcript_fallback (e : String) (w : AVWorld)
    (fs : List String) :
    extract_youtube_transcript (.error e) w fs = (extract_audio_transcript w fs, 1) :=
  rfl

/-! ## Pipeline endpoints (backend.py 227-339) -/

/-- `summary.strip()`. -/
def pythonStrip (s : List Char) : List Char :=
  ((s.dropWhile Char.isWhitespace).reverse.dropWhile Char.isWhitespace).reverse

/-- `generate_summary` (backend.py 198-224): the generative-text call is
an oracle; a successful response is stripped, a provider error is
re-raised as an HTTP 500 error. -/
def generate_summary (llmResult : Except String (List Char)) :
    Except String (List Char) :=
  match llmResult with
  | .ok s => .ok (pythonStrip s)
  | .error e => .error ("Error generating summary: " ++ e)

/-- `SummaryResponse` (backend.py 61-68); the metadata dict is an
association list of rendered values. -/
structure SummaryResponse where
  id : String
  summary : List Char
  metadata : List (String × String)
  transcript : List Char
  sentiment : Option Sentiment
  keywords : Option (List (List Char))
  timestamp : String
deriving DecidableEq

/-- Oracles for one run of the URL endpoint: the lexicon analyzer, the
metadata provider, the caption provider, the audio/speech steps of a
possible fallback, the generative-text reply, the fresh UUID and the
clock. -/
structure UrlWorld where
  analyzer : List Char → PolarityScores
  metadataResult : Except String (List (String × String))
  primaryResult : Except String (List (List Char))
  av : AVWorld
  llmResult : Except String (List Char)
  newId : String
  now : String

/-- `summarize_video` (backend.py 227-275), returning the HTTP result,
the final filesystem and the final in-memory storage.  The three option
strings only shape the instruction sent to the generative provider,
whose reply is the oracle `w.llmResult`. -/
def summarize_video (w : UrlWorld) (url : List Char) (fmt ln lg : String)
    (include_sentiment : Bool) (fs : List String)
    (storage : List SummaryResponse) :
    Except String SummaryResponse × List String × List SummaryResponse :=
  if url.isEmpty then (.error "URL is required", fs, storage)
  else
    match extract_video_id url with
    | .error e => (.error e, fs, storage)
    | .ok _vid =>
      match w.metadataResult with
      | .error e => (.error e, fs, storage)
      | .ok md =>
        match (extract_youtube_transcript w.primaryResult w.av fs).1.1 with
        | .error e =>
          (.error e, (extract_youtube_transcript w.primaryResult w.av fs).1.2, storage)
        | .ok transcript =>
          match generate_summary w.llmResult with
          | .error e =>
            (.error e, (extract_youtube_transcript w.primaryResult w.av fs).1.2, storage)
          | .ok summary =>
            let resp : SummaryResponse :=
              { id := w.newId, summary := summary, metadata := md,
                transcript := transcript,
                sentiment := if include_sentiment then
                    some (analyze_sentiment w.analyzer transcript) else none,
                keywords := some (extract_keywords transcript),
                timestamp := w.now }
            (.ok resp, (extract_youtube_transcript w.primaryResult w.av fs).1.2,
              storage ++ [resp])

/-- `file.filename.lower().endswith(('.mp4', '.avi', '.mov', '.mkv'))`. -/
def acceptedExt (filename : List Char) : Bool :=
  [".mp4".data, ".avi".data, ".mov".data, ".mkv".data].any
    (fun e => e.isSuffixOf (filename.map Char.toLower))

/-- Oracles for one run of the upload endpoint. -/
structure UploadWorld where
  analyzer : List Char → PolarityScores
  tempPath : String
  contentLen : Nat
  contentType : String
  av : AVWorld
  llmResult : Except String (List Char)
  newId : String
  now : String

/-- `summarize_uploaded_video` (backend.py 277-339).  The extension gate
precedes the `try` block: a rejected name produces the 400 error before
the uploaded bytes are written to the temporary copy and before any
transcription.  The last component counts fallback invocations. -/
def summarize_uploaded_video (w : UploadWorld) (filename : List Char)
    (fmt ln lg : String) (include_sentiment : Bool) (fs : List String)
    (storage : List SummaryResponse) :
    Except String SummaryResponse × List String × List SummaryResponse × Nat :=
  if acceptedExt filename = false then
    (.error "Unsupported file format", fs, storage, 0)
  else
    match (extract_audio_transcript w.av (fs ++ [w.tempPath])).1 with
    | .error e => (.error e, (extract_audio_transcript w.av (fs ++ [w.tempPath])).2,
        storage, 1)
    | .ok transcript =>
      match generate_summary w.llmResult with
      | .error e => (.error e, (extract_audio_transcript w.av (fs ++ [w.tempPath])).2,
          storage, 1)
      | .ok summary =>
        let resp : SummaryResponse :=
          { id := w.newId, summary := summary,
            metadata := [("title", String.mk filename),
                         ("file_size", toString w.contentLen),
                         ("file_type", w.contentType)],
            transcript := transcript,
            sentiment := if include_sentiment then
                some (analyze_sentiment w.analyzer transcript) else none,
            keywords := some (extract_keywords transcript),
            timestamp := w.now }
        (.ok resp,
          ((extract_audio_transcript w.av (fs ++ [w.tempPath])).2).erase w.tempPath,
          storage ++ [resp], 1)

/-- **C7.** Any upload whose filename extension is outside the accepted
set fails with the `Unsupported file format` error with the filesystem
untouched (no temporary copy written) and zero invocations of the
Audio-to-Text Fallback. -/
theorem summarize_uploaded_video_rejects (w : UploadWorld) (filename : List Char)
    (fmt ln lg : String) (inc : Bool) (fs : List String)
    (storage : List SummaryResponse) (h : acceptedExt filename = false) :
    summarize_uploaded_video w filename fmt ln lg inc fs storage
      = (.error "Unsupported file format", fs, storage, 0) := by
  unfold summarize_uploaded_video
  rw [if_pos h]

/-- Shared concrete oracles for evaluating the endpoints. -/
def sampleAnalyzer : List Char → PolarityScores := fun _ => ⟨0, 0, 1, 0⟩

def sampleAV : AVWorld := ⟨true, "audio.wav", true, some ("Hello world.".data)⟩

def sampleUrlWorld : UrlWorld :=
  ⟨sampleAnalyzer, .ok [("title", "T")], .ok ["Hello".data, "world.".data],
    sampleAV, .ok (" A summary ".data), "id-1", "2024-01-01T00:00:00"⟩

def sampleUploadWorld : UploadWorld :=
  ⟨sampleAnalyzer, "upload.tmp", 3, "video/mp4", sampleAV,
    .ok (" A summary ".data), "id-1", "2024-01-01T00:00:00"⟩

/-- The record produced by `summarize_video` on `sampleUrlWorld`. -/
def sampleResponse : SummaryResponse :=
  { id := "id-1", summary := pythonStrip (" A summary ".data),
    metadata := [("title", "T")],
    transcript := joinSpaces ["Hello".data, "world.".data],
    sentiment := some (analyze_sentiment sampleAnalyzer
      (joinSpaces ["Hello".data, "world.".data])),
    keywords := some (extract_keywords (joinSpaces ["Hello".data, "world.".data])),
    timestamp := "2024-01-01T00:00:00" }

/-- The record produced by `summarize_uploaded_video` on
`sampleUploadWorld` and `movie.mp4`. -/
def sampleUploadResponse : SummaryResponse :=
  { id := "id-1", summary := pythonStrip (" A summary ".data),
    metadata := [("title", "movie.mp4"), ("file_size", toString 3),
                 ("file_type", "video/mp4")],
    transcript := "Hello world.".data,
    sentiment := some (analyze_sentiment sampleAnalyzer ("Hello world.".data)),
    keywords := some (extract_keywords ("Hello world.".data)),
    timestamp := "2024-01-01T00:00:00" }

/-- Witness for C7 at the rejected filename `notes.txt`. -/
theorem summarize_uploaded_video_rejects_witness :
    summarize_uploaded_video sampleUploadWorld ("notes.txt".data) "bullet_points"
        "medium" "english" false [] []
      = (.error "Unsupported file format", [], [], 0) :=
  summarize_uploaded_video_rejects sampleUploadWorld ("notes.txt".data)
    "bullet_points" "medium" "english" false [] [] (by decide)

/-- **C8** (amended).  Every URL-endpoint run that completes without
error appends exactly one record to the storage, and a failing run
appends none; no emptiness check is made on the transcript or the
summary. -/
theorem summarize_video_record (w : UrlWorld) (url : List Char)
    (fmt ln lg : String) (inc : Bool) (fs : List String)
    (storage : List SummaryResponse) :
    (∀ rec, (summarize_video w url fmt ln lg inc fs storage).1 = .ok rec →
      (summarize_video w url fmt ln lg inc fs storage).2.2 = storage ++ [rec]) ∧
    (∀ e, (summarize_video w url fmt ln lg inc fs storage).1 = .error e →
      (summarize_video w url fmt ln lg inc fs storage).2.2 = storage) := by
  unfold summarize_video
  split
  · exact ⟨fun rec h => by simp at h, fun e _ => rfl⟩
  · split
    · exact ⟨fun rec h => by simp at h, fun e _ => rfl⟩
    · split
      · exact ⟨fun rec h => by simp at h, fun e _ => rfl⟩
      · split
        · exact ⟨fun rec h => by simp at h, fun e _ => rfl⟩
        · split
          · exact ⟨fun rec h => by simp at h, fun e _ => rfl⟩
          · refine ⟨fun rec h => ?_, fun e h => by simp at h⟩
            obtain rfl := Except.ok.inj h
            rfl

/-- Witness for the amended C8 on a successful concrete run. -/
theorem summarize_video_record_witness :
    (summarize_video sampleUrlWorld ("v=abcdefghijk".data) "markdown" "short"
        "english" true [] []).2.2 = [] ++ [sampleResponse] :=
  (summarize_video_record sampleUrlWorld ("v=abcdefghijk".data) "markdown" "short"
      "english" true [] []).1 sampleResponse rfl

/-- **C8** (counterexample to the claim as stated): when the caption
provider returns an empty fragment list, the pipeline completes without
error — refuting both that every non-error run has a non-empty
transcript and that an empty transcript can arise only from a failing
acquisition. -/
theorem summarize_video_empty_transcript :
    ((summarize_video
          ⟨sampleAnalyzer, .ok [("title", "T")], .ok [], sampleAV,
            .ok (" A summary ".data), "id-1", "2024-01-01T00:00:00"⟩
          ("v=abcdefghijk".data) "markdown" "short" "english" true [] []).1).map
        SummaryResponse.transcript
      = Except.ok ([] : List Char) :=
  rfl

/-- **C10.** On every successful run of either entry point, the record's
`keywords` field is populated (despite the `Optional` declaration), and
the `sentiment` field is populated exactly when `include_sentiment` is
set. -/
theorem summary_fields_optionality :
    (∀ (w : UrlWorld) (url : List Char) (fmt ln lg : String) (inc : Bool)
        (fs : List String) (storage : List SummaryResponse)
        (rec : SummaryResponse),
      (summarize_video w url fmt ln lg inc fs storage).1 = .ok rec →
        rec.keywords.isSome = true ∧ rec.sentiment.isSome = inc) ∧
    (∀ (w : UploadWorld) (filename : List Char) (fmt ln lg : String) (inc : Bool)
        (fs : List String) (storage : List SummaryResponse)
        (rec : SummaryResponse),
      (summarize_uploaded_video w filename fmt ln lg inc fs storage).1 = .ok rec →
        rec.keywords.isSome = true ∧ rec.sentiment.isSome = inc) := by
  constructor
  · intro w url fmt ln lg inc fs storage rec h
    unfold summarize_video at h
    split at h
    · simp at h
    · split at h
      · simp at h
      · split at h
        · simp at h
        · split at h
          · simp at h
          · split at h
            · simp at h
            · obtain rfl := Except.ok.inj h
              refine ⟨rfl, ?_⟩
              cases inc <;> rfl
  · intro w filename fmt ln lg inc fs storage rec h
    unfold summarize_uploaded_video at h
    split at h
    · simp at h
    · split at h
      · simp at h
      · split at h
        · simp at h
        · obtain rfl := Except.ok.inj h
          refine ⟨rfl, ?_⟩
          cases inc <;> rfl

/-- Witness for C10 on concrete successful runs of both endpoints with
`include_sentiment = true`. -/
theorem summary_fields_optionality_witness :
    (sampleResponse.keywords.isSome = true ∧
        sampleResponse.sentiment.isSome = true) ∧
      (sampleUploadResponse.keywords.isSome = true ∧
        sampleUploadResponse.sentiment.isSome = true) :=
  ⟨summary_fields_optionality.1 sampleUrlWorld ("v=abcdefghijk".data) "markdown"
      "short" "english" true [] [] sampleResponse rfl,
    summary_fields_optionality.2 sampleUploadWorld ("movie.mp4".data)
      "bullet_points" "medium" "english" true [] [] sampleUploadResponse rfl⟩

end VideoSummarizer
